import Mathlib

namespace IotexElection

set_option maxRecDepth 40000

/-! Byte/word utilities, embedding src/util/util.go. Bytes are `Nat` values below 256,
64-bit words are `Nat` values below 2^64; overflow is made explicit with `% 2^64`. -/

/-- Embeds `util.Uint64ToBytes`: the 8-byte little-endian encoding of a 64-bit word. -/
def Uint64ToBytes (u : Nat) : List Nat :=
  (List.range 8).map (fun i => u / 256 ^ i % 256)

/-- Embeds `util.BytesToUint64`: reads the first 8 bytes as a little-endian 64-bit word. -/
def BytesToUint64 (b : List Nat) : Nat :=
  (List.range 8).foldr (fun i acc => acc + b.getD i 0 * 256 ^ i) 0

/-- Embeds Go's `uint64(x)` conversion of an `int64` value: reduction modulo 2^64. -/
def toUint64 (x : Int) : Nat :=
  (x % (2 ^ 64 : Int)).toNat

/-! BLAKE2b-256 (RFC 7693, unkeyed, 32-byte digest), embedding the algorithm behind
`golang.org/x/crypto/blake2b.Sum256` used by `filterAndSortCandidates`. -/

/-- 64-bit truncating addition. -/
def add64 (x y : Nat) : Nat := (x + y) % 2 ^ 64

/-- Rotate a 64-bit word right by `n` (0 < n < 64). -/
def rotr64 (x n : Nat) : Nat := x / 2 ^ n + x % 2 ^ n * 2 ^ (64 - n)

/-- BLAKE2b initialization vector. -/
def blakeIV : List Nat :=
  [0x6a09e667f3bcc908, 0xbb67ae8584caa73b, 0x3c6ef372fe94f82b, 0xa54ff53a5f1d36f1,
   0x510e527fade682d1, 0x9b05688c2b3e6c1f, 0x1f83d9abfb41bd6b, 0x5be0cd19137e2179]

/-- BLAKE2b message schedule permutations. -/
def blakeSigma : List (List Nat) :=
  [[0, 1, 2, 3, 4, 5, 6, 7, 8, 9, 10, 11, 12, 13, 14, 15],
   [14, 10, 4, 8, 9, 15, 13, 6, 1, 12, 0, 2, 11, 7, 5, 3],
   [11, 8, 12, 0, 5, 2, 15, 13, 10, 14, 3, 6, 7, 1, 9, 4],
   [7, 9, 3, 1, 13, 12, 11, 14, 2, 6, 5, 10, 4, 0, 15, 8],
   [9, 0, 5, 7, 2, 4, 10, 15, 14, 1, 11, 12, 6, 8, 3, 13],
   [2, 12, 6, 10, 0, 11, 8, 3, 4, 13, 7, 5, 15, 14, 1, 9],
   [12, 5, 1, 15, 14, 13, 4, 10, 0, 7, 6, 3, 9, 2, 8, 11],
   [13, 11, 7, 14, 12, 1, 3, 9, 5, 0, 15, 4, 8, 6, 2, 10],
   [6, 15, 14, 9, 11, 3, 0, 8, 12, 2, 13, 7, 1, 4, 10, 5],
   [10, 2, 8, 4, 7, 6, 1, 5, 15, 11, 9, 14, 3, 12, 13, 0]]

/-- The BLAKE2b mixing function G acting on working-vector positions `a b c d`
with message words `x y`. -/
def blakeG (v : List Nat) (a b c d x y : Nat) : List Nat :=
  let va := add64 (add64 (v.getD a 0) (v.getD b 0)) x
  let vd := rotr64 ((v.getD d 0) ^^^ va) 32
  let vc := add64 (v.getD c 0) vd
  let vb := rotr64 ((v.getD b 0) ^^^ vc) 24
  let va := add64 (add64 va vb) y
  let vd := rotr64 (vd ^^^ va) 16
  let vc := add64 vc vd
  let vb := rotr64 (vb ^^^ vc) 63
  ((((v.set a va).set b vb).set c vc).set d vd)

/-- One round of the BLAKE2b compression function. -/
def blakeRound (m : List Nat) (v : List Nat) (r : Nat) : List Nat :=
  let s := blakeSigma.getD (r % 10) []
  let w := fun i => m.getD (s.getD i 0) 0
  let v := blakeG v 0 4 8 12 (w 0) (w 1)
  let v := blakeG v 1 5 9 13 (w 2) (w 3)
  let v := blakeG v 2 6 10 14 (w 4) (w 5)
  let v := blakeG v 3 7 11 15 (w 6) (w 7)
  let v := blakeG v 0 5 10 15 (w 8) (w 9)
  let v := blakeG v 1 6 11 12 (w 10) (w 11)
  let v := blakeG v 2 7 8 13 (w 12) (w 13)
  blakeG v 3 4 9 14 (w 14) (w 15)

/-- Reads the 16 little-endian 64-bit message words of a (zero-padded) 128-byte block. -/
def blockWords (block : List Nat) : List Nat :=
  (List.range 16).map (fun i => BytesToUint64 (block.drop (8 * i)))

/-- The BLAKE2b compression function F on state `h`, block words `m`, byte counter `t`
and finalization flag `f`. -/
def blakeF (h : List Nat) (m : List Nat) (t : Nat) (f : Bool) : List Nat :=
  let v := h ++ blakeIV
  let v := v.set 12 ((v.getD 12 0) ^^^ (t % 2 ^ 64))
  let v := v.set 13 ((v.getD 13 0) ^^^ (t / 2 ^ 64 % 2 ^ 64))
  let v := if f then v.set 14 ((v.getD 14 0) ^^^ (2 ^ 64 - 1)) else v
  let v := (List.range 12).foldl (blakeRound m) v
  (List.range 8).map (fun i => (h.getD i 0) ^^^ (v.getD i 0) ^^^ (v.getD (i + 8) 0))

/-- Fuel-driven block splitter; with fuel at least `l.length` it splits `l` into
128-byte blocks (structural recursion so that the kernel can evaluate it). -/
def chunkGo : Nat → List Nat → List (List Nat)
  | 0, l => [l]
  | fuel + 1, l => if l.length ≤ 128 then [l] else l.take 128 :: chunkGo fuel (l.drop 128)

/-- Splits a message into 128-byte blocks; the final block is the (possibly empty,
possibly short) remainder, as in the BLAKE2b padding rule. -/
def chunk128 (l : List Nat) : List (List Nat) :=
  chunkGo l.length l

/-- Iterates the compression function over the blocks of a message. -/
def blakeBlocks (h : List Nat) (t : Nat) : List (List Nat) → List Nat
  | [] => h
  | [b] => blakeF h (blockWords b) (t + b.length) true
  | b :: b2 :: rest => blakeBlocks (blakeF h (blockWords b) (t + 128) false) (t + 128) (b2 :: rest)

/-- BLAKE2b-256 of a byte string: 32-byte digest, no key, as computed by
`blake2b.Sum256` in Go. -/
def blake2b256 (input : List Nat) : List Nat :=
  let h0 := blakeIV.set 0 ((blakeIV.getD 0 0) ^^^ 0x01010020)
  let out := blakeBlocks h0 0 (chunk128 input)
  (List.range 32).map (fun i => out.getD (i / 8) 0 / 256 ^ (i % 8) % 256)

/-! Association lists model the Go maps `candidates`, `candidateVotes`, and the
batch `results`/`errs` maps: `lookupA` finds the first binding of a key, `updateA`
rewrites the binding in place. Go maps have unique keys, so first-match semantics
agrees with map semantics on every state the code can build. -/

/-- Looks up the first binding of `k` in an association list. -/
def lookupA {κ β : Type} [DecidableEq κ] (k : κ) : List (κ × β) → Option β
  | [] => none
  | p :: ps => if p.1 = k then some p.2 else lookupA k ps

/-- Rewrites the binding of `k` in an association list, leaving other keys alone. -/
def updateA {κ β : Type} [DecidableEq κ] (k : κ) (f : β → β) : List (κ × β) → List (κ × β) :=
  List.map (fun p => if p.1 = k then (p.1, f p.2) else p)

/-! The result calculator, embedding src/types/resultcalculator.go. Candidate names
are byte strings (`List Nat`); Go's map keys are the lowercase-hex strings of those
names, modelled as the list of ASCII codes of the hex characters, so that
`strings.Compare` and the bytes fed to BLAKE2b match the Go code exactly. -/

/-- ASCII code of the lowercase hex digit of a value below 16, as produced by
Go's `hex.EncodeToString`. -/
def hexChar (n : Nat) : Nat := if n < 10 then 48 + n else 87 + n

/-- Embeds `hex.EncodeToString`: the ASCII codes of the lowercase-hex encoding
of a byte string (the calculator's `hex` helper). -/
def hexEncode (b : List Nat) : List Nat :=
  b.flatMap (fun x => [hexChar (x / 16), hexChar (x % 16)])

/-- Embeds the `candidateZero` constant "000000000000000000000000": twenty-four
ASCII zeros, the hex form of twelve zero bytes. -/
def candidateZero : List Nat := List.replicate 24 48

/-- Embeds `types.Registration` as consumed by `AddRegistrations`: its name and
operator address bytes and the self-staking weight. -/
structure Registration where
  name : List Nat
  address : List Nat
  selfStakingWeight : Nat
deriving DecidableEq

/-- Embeds `types.Candidate` as used by the calculator: identity data plus the
accumulated score and self-staking tokens (big integers, modelled as `Int`). -/
structure Candidate where
  name : List Nat
  address : List Nat
  selfStakingWeight : Nat
  score : Int
  selfStakingTokens : Int
deriving DecidableEq

/-- Embeds the fields of `types.Bucket` that `AddBuckets` reads: `Voter()`,
`Candidate()` (nil modelled as `none`) and `Amount()`. -/
structure Bucket where
  voter : List Nat
  candName : Option (List Nat)
  amount : Int
deriving DecidableEq

/-- Embeds `types.Vote` as built by `NewVote(bucket, score)`: the bucket together
with its (possibly self-stake-scaled) score. Modelled from the spec: vote.go is not
in src/; §3 of the spec describes a Vote as a bucket reference plus the computed
weighted score, with no failure case. -/
structure Vote where
  bucket : Bucket
  score : Int
deriving DecidableEq

/-- Errors returned by the calculator's mutators, mirroring the `errors.New` /
`errors.Errorf` values in resultcalculator.go and the negative-value rejections
of the candidate accessors. -/
inductive CalcErr where
  | alreadyCalculated
  | votesExist
  | duplicate (nameHex : List Nat)
  | negative
deriving DecidableEq

/-- Embeds the mutable state of `types.ResultCalculator`: the candidate map, the
per-candidate vote lists, the two running totals and the `calculated` flag. The
strategy functions (filters, scorer) are passed to each operation explicitly. -/
structure CalcState where
  candidates : List (List Nat × Candidate)
  candidateVotes : List (List Nat × List Vote)
  totalVotes : Int
  totalVotedStakes : Int
  calculated : Bool
deriving DecidableEq

/-- Embeds `NewResultCalculator`: empty maps, zero totals, not yet calculated. -/
def NewResultCalculator : CalcState :=
  { candidates := [], candidateVotes := [], totalVotes := 0,
    totalVotedStakes := 0, calculated := false }

/-- Embeds `NewCandidate(c, big.NewInt(0), big.NewInt(0))`. Modelled from the spec:
candidate.go is not in src/; §4.3 says an inserted candidate starts with score 0 and
selfStakingTokens 0 and carries the registration's identity data. -/
def NewCandidate (r : Registration) : Candidate :=
  { name := r.name, address := r.address, selfStakingWeight := r.selfStakingWeight,
    score := 0, selfStakingTokens := 0 }

/-- Embeds the loop body of `AddRegistrations`: hex the name, reject duplicates,
skip manified candidates when configured, otherwise insert a fresh candidate and
an empty vote list. On error the insertions made so far remain (Go mutates the
receiver in place), so the loop returns the state it reached. -/
def addRegsLoop (skipManified : Bool) : CalcState → List Registration → CalcState × Option CalcErr
  | s, [] => (s, none)
  | s, r :: rest =>
    let nameHex := hexEncode r.name
    if (lookupA nameHex s.candidates).isSome then
      (s, some (CalcErr.duplicate nameHex))
    else if 1 < r.selfStakingWeight ∧ skipManified = true then
      addRegsLoop skipManified s rest
    else
      addRegsLoop skipManified
        { s with candidates := s.candidates ++ [(nameHex, NewCandidate r)],
                 candidateVotes := s.candidateVotes ++ [(nameHex, [])] } rest

/-- Embeds `ResultCalculator.AddRegistrations`: fails when already calculated or
when the total votes are strictly positive, otherwise runs the insertion loop. -/
def AddRegistrations (skipManified : Bool) (s : CalcState) (regs : List Registration) :
    CalcState × Option CalcErr :=
  if s.calculated = true then (s, some CalcErr.alreadyCalculated)
  else if 0 < s.totalVotes then (s, some CalcErr.votesExist)
  else addRegsLoop skipManified s regs

/-- Modelled from the spec: `candidate.addSelfStakingTokens` (candidate.go is not in
src/). Spec §3 requires `selfStakingTokens` to stay non-negative and monotone, so a
negative addend is rejected and otherwise the amount is accumulated. -/
def addSelfStakingTokens (c : Candidate) (amt : Int) : Except CalcErr Candidate :=
  if amt < 0 then Except.error CalcErr.negative
  else Except.ok { c with selfStakingTokens := c.selfStakingTokens + amt }

/-- Modelled from the spec: `candidate.addScore` (candidate.go is not in src/).
Spec §3 requires `score` to stay non-negative and monotone, so a negative addend is
rejected and otherwise the score is accumulated. -/
def addScore (c : Candidate) (sc : Int) : Except CalcErr Candidate :=
  if sc < 0 then Except.error CalcErr.negative
  else Except.ok { c with score := c.score + sc }

/-- Embeds the Go idiom `calculator.candidateVotes[nameHex] = append(..., cVote)`:
appending through a map index creates the entry when it is missing. -/
def appendVote (k : List Nat) (v : Vote) (m : List (List Nat × List Vote)) :
    List (List Nat × List Vote) :=
  if (lookupA k m).isSome then updateA k (fun vs => vs ++ [v]) m else m ++ [(k, [v])]

/-- Embeds one iteration of the `AddBuckets` loop: filter, skip missing and
reserved-zero names, compute amount and score, scale self votes by the candidate's
self-staking weight, record the vote and update both totals. Returns the updated
state and the error that aborts the loop, if any. -/
def processBucket (bucketFilter : Bucket → Bool) (calcScore : Bucket → Int)
    (s : CalcState) (b : Bucket) : CalcState × Option CalcErr :=
  if bucketFilter b = true then (s, none)
  else
    match b.candName with
    | none => (s, none)
    | some nm =>
      let nameHex := hexEncode nm
      if nameHex = candidateZero then (s, none)
      else
        let amount := b.amount
        let score := calcScore b
        match lookupA nameHex s.candidates with
        | none =>
          ({ s with totalVotedStakes := s.totalVotedStakes + amount,
                    totalVotes := s.totalVotes + score }, none)
        | some cand =>
          let selfVote : Bool := b.voter == cand.address
          let amount := if selfVote then amount * (cand.selfStakingWeight : Int) else amount
          if selfVote && decide (amount < 0) then (s, some CalcErr.negative)
          else
            let tokUpd := fun c => { c with selfStakingTokens := c.selfStakingTokens + amount }
            let s1 := if selfVote then { s with candidates := updateA nameHex tokUpd s.candidates } else s
            let score := if selfVote then score * (cand.selfStakingWeight : Int) else score
            if score < 0 then (s1, some CalcErr.negative)
            else
              let scoreUpd := fun c => { c with score := c.score + score }
              let s2 := { s1 with
                candidates := updateA nameHex scoreUpd s1.candidates,
                candidateVotes := appendVote nameHex { bucket := b, score := score } s1.candidateVotes }
              ({ s2 with totalVotedStakes := s2.totalVotedStakes + amount,
                         totalVotes := s2.totalVotes + score }, none)

/-- Embeds the `AddBuckets` loop over the bucket list, stopping at the first error
and keeping the mutations made before it. -/
def addBucketsLoop (bucketFilter : Bucket → Bool) (calcScore : Bucket → Int) :
    CalcState → List Bucket → CalcState × Option CalcErr
  | s, [] => (s, none)
  | s, b :: rest =>
    match processBucket bucketFilter calcScore s b with
    | (s1, none) => addBucketsLoop bucketFilter calcScore s1 rest
    | (s1, some e) => (s1, some e)

/-- Embeds `ResultCalculator.AddBuckets`: fails when already calculated, otherwise
processes the buckets in order. -/
def AddBuckets (bucketFilter : Bucket → Bool) (calcScore : Bucket → Int)
    (s : CalcState) (bs : List Bucket) : CalcState × Option CalcErr :=
  if s.calculated = true then (s, some CalcErr.alreadyCalculated)
  else addBucketsLoop bucketFilter calcScore s bs
/-- Embeds Go's `strings.Compare` on the hex-name keys: lexicographic comparison
of the underlying byte sequences, shorter prefix first. -/
def bytesCmp : List Nat → List Nat → Ordering
  | [], [] => Ordering.eq
  | [], _ :: _ => Ordering.lt
  | _ :: _, [] => Ordering.gt
  | a :: as, b :: bs =>
    if a < b then Ordering.lt else if b < a then Ordering.gt else bytesCmp as bs

/-- Embeds the `item` struct of resultcalculator.go: map key (hex name), score
value and the 64-bit tie-breaking priority. -/
structure Item where
  Key : List Nat
  Value : Int
  Priority : Nat
deriving DecidableEq

/-- Embeds `itemList.Less`: score descending by big-integer comparison, then
priority descending, then `strings.Compare(Key_i, Key_j) > 0`. -/
def itemLess (a b : Item) : Bool :=
  if a.Value < b.Value then false
  else if b.Value < a.Value then true
  else if a.Priority < b.Priority then false
  else if b.Priority < a.Priority then true
  else decide (bytesCmp a.Key b.Key = Ordering.gt)

/-- The non-strict order induced by `itemLess`: `a` may come no later than `b`.
A stable sort with `itemLess` orders its output exactly by this relation. -/
def itemLE (a b : Item) : Bool := !(itemLess b a)

/-- The ordering relation handed to the sort. -/
def itemRel (a b : Item) : Prop := itemLE a b = true

instance : DecidableRel itemRel := fun a b => instDecidableEqBool (itemLE a b) true

/-- The strict composite order of spec §4.3 on ranking items: score descending,
then priority descending, then key (hex name) descending under `strings.Compare`.
`itemGT a b` says the composite key of `a` is strictly greater than that of `b`. -/
def itemGT (a b : Item) : Prop :=
  b.Value < a.Value ∨
    (a.Value = b.Value ∧
      (b.Priority < a.Priority ∨
        (a.Priority = b.Priority ∧ bytesCmp a.Key b.Key = Ordering.gt)))

instance (a b : Item) : Decidable (itemGT a b) := by unfold itemGT; infer_instance

/-- The tie-breaking priority computed by `filterAndSortCandidates`: the first 8
bytes of BLAKE2b-256 of the map key (the hex-name bytes) concatenated with the
8-byte little-endian mint-time seconds, read as a little-endian unsigned 64-bit
integer. -/
def calcPriority (key : List Nat) (mintTime : Int) : Nat :=
  BytesToUint64 ((blake2b256 (key ++ Uint64ToBytes (toUint64 mintTime))).take 8)

/-- Embeds the item-building phase of `filterAndSortCandidates`: one item per
candidate map entry that survives the candidate filter. -/
def itemsOf (candidateFilter : Candidate → Bool) (mintTime : Int)
    (entries : List (List Nat × Candidate)) : List Item :=
  entries.filterMap (fun p =>
    if candidateFilter p.2 = true then none
    else some { Key := p.1, Value := p.2.score, Priority := calcPriority p.1 mintTime })

/-- Embeds `sort.Stable(p)`: a stable sort under `itemLess`. Stable sorting is
unique, so the stable `insertionSort` computes exactly the list `sort.Stable`
produces. -/
def sortItems (l : List Item) : List Item := l.insertionSort itemRel

/-- Embeds `filterAndSortCandidates`: build the items from the candidate map
entries (in whatever order the map yields them), stable-sort them, and return the
keys. -/
def filterAndSortCandidates (candidateFilter : Candidate → Bool) (mintTime : Int)
    (entries : List (List Nat × Candidate)) : List (List Nat) :=
  (sortItems (itemsOf candidateFilter mintTime entries)).map Item.Key

/-- Embeds `types.ElectionResult` as assembled by `Calculate`. -/
structure ElectionResult where
  mintTime : Int
  delegates : List Candidate
  votes : List (List Nat × List Vote)
  totalVotedStakes : Int
  totalVotes : Int
deriving DecidableEq

/-- Placeholder candidate for the total `getD` lookup of qualifiers; every
qualifier key is present in the candidate map, so it is never used. -/
def defaultCand : Candidate :=
  { name := [], address := [], selfStakingWeight := 0, score := 0, selfStakingTokens := 0 }

/-- Embeds `ResultCalculator.Calculate`: fails when already calculated, otherwise
ranks the qualifying candidates, marks the calculator finalized and assembles the
result. The candidate map entries are passed through `filterAndSortCandidates` in
the order the state holds them; determinism over that order is proved separately. -/
def Calculate (candidateFilter : Candidate → Bool) (mintTime : Int) (s : CalcState) :
    Except CalcErr (ElectionResult × CalcState) :=
  if s.calculated = true then Except.error CalcErr.alreadyCalculated
  else
    let qualifiers := filterAndSortCandidates candidateFilter mintTime s.candidates
    Except.ok
      ({ mintTime := mintTime,
         delegates := qualifiers.map (fun n => (lookupA n s.candidates).getD defaultCand),
         votes := qualifiers.map (fun n => (n, (lookupA n s.candidateVotes).getD [])),
         totalVotedStakes := s.totalVotedStakes,
         totalVotes := s.totalVotes },
       { s with calculated := true })

/-! The committee sync engine, embedding the committee part of the source:
`calcWeightedVotes`, `retryFetchResultByHeight`, `storeResult` and `storeInBatch`. -/

/-- Embeds the fields of `types.Vote` read by `committee.calcWeightedVotes`:
start time (seconds, as an abstract instant), duration (non-negative, as Go's
chain-supplied durations are) and amount. -/
structure CommVote where
  startTime : Int
  duration : Nat
  amount : Int
deriving DecidableEq

/-- Modelled from the spec: `Vote.RemainingTime` (vote.go is not in src/). Spec §3:
remainingTime(now) = max(0, startTime + duration − now). -/
def remainingTime (v : CommVote) (now : Int) : Int :=
  max 0 (v.startTime + (v.duration : Int) - now)

/-- Embeds `committee.calcWeightedVotes`. The branch with positive remaining time
computes `floor(amount · (1 + log(ceil(remaining/86400))/log 1.2/100))` in float64
arithmetic; that floating-point branch is kept abstract as the parameter `fw`.
The remaining branches are exact: before the start time the result is 0, and with
zero remaining time the weight is exactly 1 and `big.Float` multiplication by 1
followed by truncation returns the amount unchanged. -/
def calcWeightedVotes (fw : Int → Int → Int) (v : CommVote) (now : Int) : Int :=
  if now < v.startTime then 0
  else if 0 < remainingTime v now then fw v.amount (remainingTime v now)
  else v.amount

/-- Embeds the retry loop of `retryFetchResultByHeight` with `n` attempts left,
attempt counter `i` and the error of the previous attempt. `fetch i` is the
outcome of the i-th call to `fetchResultByHeight`; on error that call returns a
nil result, so only the error is carried across iterations. -/
def retryGo {E R : Type} (fetch : Nat → Except E R) :
    Nat → Nat → Option E → Option R × Option E
  | 0, _, lastErr => (none, lastErr)
  | n + 1, i, _ =>
    match fetch i with
    | Except.ok r => (some r, none)
    | Except.error e => retryGo fetch n (i + 1) (some e)

/-- Embeds `committee.retryFetchResultByHeight`: up to `retryLimit` attempts,
returning on the first success, otherwise the last error; with zero attempts the
declared zero values (nil result, nil error) are returned. -/
def retryFetchResultByHeight {E R : Type} (fetch : Nat → Except E R) (retryLimit : Nat) :
    Option R × Option E :=
  retryGo fetch retryLimit 0 none

/-- Embeds the field of `types.ElectionResult` that `storeInBatch` reads:
`MintTime()`. -/
structure ERes where
  mintTime : Int
deriving DecidableEq

/-- Embeds the committee state touched by `storeInBatch`: the persisted results
(db and cache, as one list in commit order), the in-memory `nextHeight`, and the
height manager's (height, mintTime) ledger. -/
structure CommitteeState where
  stored : List (Nat × ERes)
  nextHeight : Nat
  hm : List (Nat × Int)
deriving DecidableEq

/-- Modelled from the spec: `heightManager.validate` (heightmanager.go is not in
src/). Spec §4.2: validation succeeds iff the height exceeds the last committed
height and the mint time exceeds the last committed mint time. -/
def hmValidate (hm : List (Nat × Int)) (h : Nat) (t : Int) : Bool :=
  match hm.getLast? with
  | none => true
  | some last => decide (last.1 < h) && decide (last.2 < t)

/-- Embeds `committee.storeResult`: persist the serialized result under the height
key and advance the NextHeightKey record (both modelled by `stored`), insert into
the cache, then append to the height manager; the append fails exactly when
`hmValidate` does (spec §4.2: add succeeds iff validate does), after the db writes
already happened. -/
def storeResult (s : CommitteeState) (h : Nat) (r : ERes) : CommitteeState × Bool :=
  let s1 := { s with stored := s.stored ++ [(h, r)] }
  if hmValidate s.hm h r.mintTime then
    ({ s1 with hm := s.hm ++ [(h, r.mintTime)] }, true)
  else (s1, false)

/-- Errors `storeInBatch` can return: a recorded fetch error for some height, or a
store failure (the wrapped `storeResult` error). -/
inductive BatchErr (E : Type) where
  | fetch (e : E)
  | store
deriving DecidableEq

/-- Outcome of `storeInBatch`: normal return, error return, or the fatal abort
taken when `heightManager.validate` rejects a height (`zap.Fatal` kills the
process). Each carries the committee state reached. -/
inductive BatchOut (E : Type) where
  | ok (s : CommitteeState)
  | err (e : BatchErr E) (s : CommitteeState)
  | fatal (s : CommitteeState)
deriving DecidableEq

/-- True exactly on the fatal outcome. -/
def BatchOut.isFatal {E : Type} : BatchOut E → Bool
  | BatchOut.fatal _ => true
  | _ => false

/-- The committee state carried by any outcome. -/
def BatchOut.state {E : Type} : BatchOut E → CommitteeState
  | BatchOut.ok s => s
  | BatchOut.err _ s => s
  | BatchOut.fatal s => s

/-- Embeds the loop of `storeInBatch` over the already-sorted heights: look up the
height's result, abort with the recorded fetch error if any, fatally abort when
the height manager rejects the (height, mintTime) pair, otherwise store and set
`nextHeight` to the height plus the interval. -/
def storeLoop {E : Type} (interval : Nat) (results : List (Nat × ERes))
    (errs : Nat → Option E) : CommitteeState → List Nat → BatchOut E
  | s, [] => BatchOut.ok s
  | s, h :: rest =>
    let r := (lookupA h results).getD { mintTime := 0 }
    match errs h with
    | some e => BatchOut.err (BatchErr.fetch e) s
    | none =>
      if hmValidate s.hm h r.mintTime then
        match storeResult s h r with
        | (s1, true) =>
          storeLoop interval results errs { s1 with nextHeight := h + interval } rest
        | (s1, false) => BatchOut.err BatchErr.store s1
      else BatchOut.fatal s

/-- Embeds the height collection and ascending sort at the top of `storeInBatch`
(`sort.Slice` on distinct map keys has a unique ascending output). -/
def sortHeights (results : List (Nat × ERes)) : List Nat :=
  (results.map Prod.fst).insertionSort (· ≤ ·)

/-- Embeds `committee.storeInBatch`: sort the batch's heights ascending and run
the commit loop. The final `lastUpdateTimestamp` store is not modelled; no claim
mentions it. -/
def storeInBatch {E : Type} (interval : Nat) (s : CommitteeState)
    (results : List (Nat × ERes)) (errs : Nat → Option E) : BatchOut E :=
  storeLoop interval results errs s (sortHeights results)
/-! Helper lemmas about association lists. -/

theorem lookupA_append_left {κ β : Type} [DecidableEq κ] (k : κ) (xs ys : List (κ × β))
    (h : (lookupA k xs).isSome = true) : lookupA k (xs ++ ys) = lookupA k xs := by
  induction xs with
  | nil => simp [lookupA] at h
  | cons p ps ih =>
    rw [List.cons_append]
    by_cases hk : p.1 = k
    · simp [lookupA, hk]
    · rw [lookupA, if_neg hk] at h
      rw [lookupA, lookupA, if_neg hk, if_neg hk]
      exact ih h

theorem lookupA_isSome_append {κ β : Type} [DecidableEq κ] (k : κ) (xs ys : List (κ × β))
    (h : (lookupA k xs).isSome = true) : (lookupA k (xs ++ ys)).isSome = true := by
  rw [lookupA_append_left k xs ys h]; exact h

theorem lookupA_updateA {κ β : Type} [DecidableEq κ] (k : κ) (f : β → β) (xs : List (κ × β)) :
    lookupA k (updateA k f xs) = (lookupA k xs).map f := by
  induction xs with
  | nil => simp [lookupA, updateA]
  | cons p ps ih =>
    by_cases hk : p.1 = k
    · simp [lookupA, updateA, hk]
    · simp only [updateA, List.map_cons, lookupA, hk, if_neg hk, if_false]
      exact ih

/-! C8: boundary behavior of calcWeightedVotes. -/

/-- C8: for every vote with non-negative amount, `calcWeightedVotes` returns 0
when `now` is before the start time, and returns exactly the amount (weight 1)
when `now` equals startTime + duration, for every model `fw` of the
floating-point branch. -/
theorem calcWeightedVotes_boundary (fw : Int → Int → Int) (v : CommVote) (now : Int)
    (hamt : 0 ≤ v.amount) :
    (now < v.startTime → calcWeightedVotes fw v now = 0) ∧
    (now = v.startTime + (v.duration : Int) → calcWeightedVotes fw v now = v.amount) := by
  constructor
  · intro h
    simp [calcWeightedVotes, h]
  · intro h
    have h1 : ¬ now < v.startTime := by omega
    have h2 : remainingTime v now = 0 := by
      unfold remainingTime; omega
    simp [calcWeightedVotes, h1, h2]

theorem calcWeightedVotes_boundary_witness :
    calcWeightedVotes (fun a r => a * r) { startTime := 10, duration := 5, amount := 7 } 3 = 0 ∧
    calcWeightedVotes (fun a r => a * r) { startTime := 10, duration := 5, amount := 7 } 15 = 7 :=
  ⟨(calcWeightedVotes_boundary (fun a r => a * r) { startTime := 10, duration := 5, amount := 7 }
      3 (by decide)).1 (by decide),
   (calcWeightedVotes_boundary (fun a r => a * r) { startTime := 10, duration := 5, amount := 7 }
      15 (by decide)).2 (by decide)⟩

/-! C9: retry with a zero retry limit. -/

/-- C9: with `retryLimit = 0` the retry loop performs no fetch attempt and
returns a nil result with a nil error, and that error component is identical to
the one of a successful fetch, so a caller inspecting the error alone cannot
tell the two apart. -/
theorem retryFetch_zero_limit {E R : Type} (fetch g : Nat → Except E R) (r : R)
    (hg : g 0 = Except.ok r) (limit : Nat) :
    retryFetchResultByHeight fetch 0 = (none, none) ∧
    retryFetchResultByHeight g (limit + 1) = (some r, none) ∧
    (retryFetchResultByHeight fetch 0).2 = (retryFetchResultByHeight g (limit + 1)).2 := by
  refine ⟨rfl, ?_, ?_⟩ <;> simp [retryFetchResultByHeight, retryGo, hg]

theorem retryFetch_zero_limit_witness :
    retryFetchResultByHeight (fun _ => (Except.error () : Except Unit Nat)) 0 = (none, none) ∧
    retryFetchResultByHeight (fun _ => (Except.ok 5 : Except Unit Nat)) 1 = (some 5, none) ∧
    (retryFetchResultByHeight (fun _ => (Except.error () : Except Unit Nat)) 0).2
      = (retryFetchResultByHeight (fun _ => (Except.ok 5 : Except Unit Nat)) 1).2 :=
  retryFetch_zero_limit (fun _ => Except.error ()) (fun _ => Except.ok 5) 5 rfl 0

/-! C5: buckets with a missing or reserved-zero candidate name are skipped. -/

/-- C5: a bucket whose candidate name is missing or equals the reserved zero name
is dropped before amount and score are computed: processing it is identical to
not processing it at all, for every filter and every score function, so it
contributes to no total and no per-candidate aggregate. -/
theorem addBuckets_skips_reserved_name (bucketFilter : Bucket → Bool)
    (calcScore : Bucket → Int) (s : CalcState) (b : Bucket) (rest : List Bucket)
    (h : b.candName = none ∨ ∃ nm, b.candName = some nm ∧ hexEncode nm = candidateZero) :
    AddBuckets bucketFilter calcScore s (b :: rest) = AddBuckets bucketFilter calcScore s rest := by
  unfold AddBuckets
  split
  · rfl
  · have hstep : processBucket bucketFilter calcScore s b = (s, none) := by
      rcases h with h | ⟨nm, h1, h2⟩
      · cases hbf : bucketFilter b <;> simp [processBucket, hbf, h]
      · cases hbf : bucketFilter b <;> simp [processBucket, hbf, h1, h2]
    simp [addBucketsLoop, hstep]

theorem addBuckets_skips_reserved_name_witness :
    AddBuckets (fun _ => false) (fun b => b.amount) NewResultCalculator
        [{ voter := [3], candName := some (List.replicate 12 0), amount := 9 }]
      = AddBuckets (fun _ => false) (fun b => b.amount) NewResultCalculator [] :=
  addBuckets_skips_reserved_name (fun _ => false) (fun b => b.amount) NewResultCalculator
    { voter := [3], candName := some (List.replicate 12 0), amount := 9 } []
    (Or.inr ⟨List.replicate 12 0, rfl, by decide⟩)
/-! C6: when further registrations are actually rejected. The code rejects them
only once `totalVotes` is strictly positive, not as soon as a bucket has been
added: a recorded bucket with score 0 leaves `totalVotes` at 0 and a later
`AddRegistrations` succeeds. -/

/-- C6 counterexample: a calculator with one registered candidate processes a
bucket for it (the vote is recorded in `candidateVotes`), yet because the score
function returned 0 a subsequent `AddRegistrations` returns no error and inserts
the new candidate, contradicting the claim that any added bucket blocks further
registrations. -/
theorem addRegistrations_after_bucket_counterexample :
    ((AddBuckets (fun _ => false) (fun _ => 0)
        (AddRegistrations false NewResultCalculator
          [{ name := [1], address := [10], selfStakingWeight := 1 }]).1
        [{ voter := [9], candName := some [1], amount := 5 }]).1.candidateVotes
      = [(hexEncode [1], [{ bucket := { voter := [9], candName := some [1], amount := 5 },
                            score := 0 }])]) ∧
    (AddRegistrations false
        (AddBuckets (fun _ => false) (fun _ => 0)
          (AddRegistrations false NewResultCalculator
            [{ name := [1], address := [10], selfStakingWeight := 1 }]).1
          [{ voter := [9], candName := some [1], amount := 5 }]).1
        [{ name := [2], address := [11], selfStakingWeight := 1 }]).2 = none ∧
    (lookupA (hexEncode [2])
        (AddRegistrations false
          (AddBuckets (fun _ => false) (fun _ => 0)
            (AddRegistrations false NewResultCalculator
              [{ name := [1], address := [10], selfStakingWeight := 1 }]).1
            [{ voter := [9], candName := some [1], amount := 5 }]).1
          [{ name := [2], address := [11], selfStakingWeight := 1 }]).1.candidates).isSome
      = true := by
  decide

/-- C6 as amended: `AddRegistrations` fails, leaving the candidate map untouched,
exactly when the calculator is already calculated or the recorded total votes are
strictly positive (the condition the code tests); merely having processed buckets
does not block registrations unless it made `totalVotes` positive. -/
theorem addRegistrations_fails_after_votes (m : Bool) (s : CalcState)
    (regs : List Registration) (h : s.calculated = true ∨ 0 < s.totalVotes) :
    (AddRegistrations m s regs).1 = s ∧ (AddRegistrations m s regs).2.isSome = true := by
  unfold AddRegistrations
  rcases h with h | h
  · simp [h]
  · by_cases hc : s.calculated = true <;> simp [h, hc]

theorem addRegistrations_fails_after_votes_witness :
    (AddRegistrations false
        { candidates := [], candidateVotes := [], totalVotes := 3,
          totalVotedStakes := 3, calculated := false }
        [{ name := [1], address := [10], selfStakingWeight := 1 }]).1
      = { candidates := [], candidateVotes := [], totalVotes := 3,
          totalVotedStakes := 3, calculated := false } ∧
    (AddRegistrations false
        { candidates := [], candidateVotes := [], totalVotes := 3,
          totalVotedStakes := 3, calculated := false }
        [{ name := [1], address := [10], selfStakingWeight := 1 }]).2.isSome = true :=
  addRegistrations_fails_after_votes false
    { candidates := [], candidateVotes := [], totalVotes := 3,
      totalVotedStakes := 3, calculated := false }
    [{ name := [1], address := [10], selfStakingWeight := 1 }] (Or.inr (by decide))

/-! C4: self-vote scaling. -/

/-- C4: processing a single bucket whose voter is the registered candidate's own
address scales both amount and score by the candidate's self-staking weight `k`:
totals grow by `k·amount` and `k·score`, the candidate's selfStakingTokens grows
by `k·amount`, its score by `k·score`, and a Vote carrying the scaled score is
appended to its vote list. -/
theorem addBuckets_self_vote_scaling (bucketFilter : Bucket → Bool)
    (calcScore : Bucket → Int) (s : CalcState) (b : Bucket) (nm : List Nat)
    (cand : Candidate) (vs : List Vote)
    (hcalc : s.calculated = false)
    (hbf : bucketFilter b = false)
    (hnm : b.candName = some nm)
    (hz : ¬ hexEncode nm = candidateZero)
    (hreg : lookupA (hexEncode nm) s.candidates = some cand)
    (hvs : lookupA (hexEncode nm) s.candidateVotes = some vs)
    (hself : b.voter = cand.address)
    (ham : 0 ≤ b.amount) (hsc : 0 ≤ calcScore b) :
    (AddBuckets bucketFilter calcScore s [b]).2 = none ∧
    (AddBuckets bucketFilter calcScore s [b]).1.totalVotedStakes
      = s.totalVotedStakes + b.amount * (cand.selfStakingWeight : Int) ∧
    (AddBuckets bucketFilter calcScore s [b]).1.totalVotes
      = s.totalVotes + calcScore b * (cand.selfStakingWeight : Int) ∧
    lookupA (hexEncode nm) (AddBuckets bucketFilter calcScore s [b]).1.candidates
      = some { cand with
          selfStakingTokens :=
            cand.selfStakingTokens + b.amount * (cand.selfStakingWeight : Int),
          score := cand.score + calcScore b * (cand.selfStakingWeight : Int) } ∧
    lookupA (hexEncode nm) (AddBuckets bucketFilter calcScore s [b]).1.candidateVotes
      = some (vs ++ [{ bucket := b,
                       score := calcScore b * (cand.selfStakingWeight : Int) }]) := by
  have hk : (0 : Int) ≤ (cand.selfStakingWeight : Int) := Int.natCast_nonneg _
  have hamk : ¬ b.amount * (cand.selfStakingWeight : Int) < 0 := by
    exact not_lt.mpr (mul_nonneg ham hk)
  have hsck : ¬ calcScore b * (cand.selfStakingWeight : Int) < 0 := by
    exact not_lt.mpr (mul_nonneg hsc hk)
  have hsome : (lookupA (hexEncode nm) s.candidateVotes).isSome = true := by
    rw [hvs]; rfl
  have hstep : processBucket bucketFilter calcScore s b =
      ({ s with
          candidates :=
            (updateA (hexEncode nm)
              (fun c => { c with score := c.score + calcScore b * (cand.selfStakingWeight : Int) })
              (updateA (hexEncode nm)
                (fun c => { c with selfStakingTokens :=
                    c.selfStakingTokens + b.amount * (cand.selfStakingWeight : Int) })
                s.candidates)),
          candidateVotes :=
            (updateA (hexEncode nm)
              (fun l => l ++ [{ bucket := b, score := calcScore b * (cand.selfStakingWeight : Int) }])
              s.candidateVotes),
          totalVotedStakes := s.totalVotedStakes + b.amount * (cand.selfStakingWeight : Int),
          totalVotes := s.totalVotes + calcScore b * (cand.selfStakingWeight : Int) },
        none) := by
    simp [processBucket, hbf, hnm, hz, hreg, hself, hamk, hsck, appendVote, hsome]
  refine ?_
  unfold AddBuckets
  rw [if_neg (by simp [hcalc])]
  unfold addBucketsLoop
  rw [hstep]
  unfold addBucketsLoop
  refine ⟨rfl, rfl, rfl, ?_, ?_⟩
  · rw [lookupA_updateA, lookupA_updateA, hreg]
    rfl
  · rw [lookupA_updateA, hvs]
    rfl

theorem addBuckets_self_vote_scaling_witness :
    (AddBuckets (fun _ => false) (fun _ => 10)
        (AddRegistrations false NewResultCalculator
          [{ name := [0x58], address := [7], selfStakingWeight := 3 }]).1
        [{ voter := [7], candName := some [0x58], amount := 10 }]).2 = none ∧
    (AddBuckets (fun _ => false) (fun _ => 10)
        (AddRegistrations false NewResultCalculator
          [{ name := [0x58], address := [7], selfStakingWeight := 3 }]).1
        [{ voter := [7], candName := some [0x58], amount := 10 }]).1.totalVotedStakes
      = 0 + 10 * ((3 : Nat) : Int) ∧
    (AddBuckets (fun _ => false) (fun _ => 10)
        (AddRegistrations false NewResultCalculator
          [{ name := [0x58], address := [7], selfStakingWeight := 3 }]).1
        [{ voter := [7], candName := some [0x58], amount := 10 }]).1.totalVotes
      = 0 + 10 * ((3 : Nat) : Int) ∧
    lookupA (hexEncode [0x58])
        (AddBuckets (fun _ => false) (fun _ => 10)
          (AddRegistrations false NewResultCalculator
            [{ name := [0x58], address := [7], selfStakingWeight := 3 }]).1
          [{ voter := [7], candName := some [0x58], amount := 10 }]).1.candidates
      = some { NewCandidate { name := [0x58], address := [7], selfStakingWeight := 3 } with
          selfStakingTokens := 0 + 10 * ((3 : Nat) : Int),
          score := 0 + 10 * ((3 : Nat) : Int) } ∧
    lookupA (hexEncode [0x58])
        (AddBuckets (fun _ => false) (fun _ => 10)
          (AddRegistrations false NewResultCalculator
            [{ name := [0x58], address := [7], selfStakingWeight := 3 }]).1
          [{ voter := [7], candName := some [0x58], amount := 10 }]).1.candidateVotes
      = some ([] ++ [{ bucket := { voter := [7], candName := some [0x58], amount := 10 },
                       score := 10 * ((3 : Nat) : Int) }]) :=
  addBuckets_self_vote_scaling (fun _ => false) (fun _ => 10)
    (AddRegistrations false NewResultCalculator
      [{ name := [0x58], address := [7], selfStakingWeight := 3 }]).1
    { voter := [7], candName := some [0x58], amount := 10 }
    [0x58] (NewCandidate { name := [0x58], address := [7], selfStakingWeight := 3 }) []
    (by decide) (by decide) (by decide) (by decide) (by decide) (by decide)
    (by decide) (by decide) (by decide)
/-! C10: what remains in the candidate map when AddRegistrations hits a
duplicate. Registrations skipped by the manified filter are never inserted, so
not every preceding registration is in the map. -/

/-- C10 counterexample: with `skipManified = true`, the list
[manified A, B, B] makes `AddRegistrations` return the duplicate error for the
second B, yet the registration A that precedes the duplicate was skipped by the
manified filter and is not in the candidate map, contradicting the claim that
every preceding registration has been inserted. -/
theorem addRegistrations_duplicate_counterexample :
    (AddRegistrations true NewResultCalculator
        [{ name := [1], address := [10], selfStakingWeight := 2 },
         { name := [2], address := [11], selfStakingWeight := 1 },
         { name := [2], address := [12], selfStakingWeight := 1 }]).2
      = some (CalcErr.duplicate (hexEncode [2])) ∧
    lookupA (hexEncode [1])
        (AddRegistrations true NewResultCalculator
          [{ name := [1], address := [10], selfStakingWeight := 2 },
           { name := [2], address := [11], selfStakingWeight := 1 },
           { name := [2], address := [12], selfStakingWeight := 1 }]).1.candidates
      = none := by
  decide

/-- Unfolding equation for one step of the registration loop. -/
theorem addRegsLoop_cons (m : Bool) (s : CalcState) (r : Registration)
    (rest : List Registration) :
    addRegsLoop m s (r :: rest) =
      if (lookupA (hexEncode r.name) s.candidates).isSome = true
      then (s, some (CalcErr.duplicate (hexEncode r.name)))
      else if 1 < r.selfStakingWeight ∧ m = true then addRegsLoop m s rest
      else addRegsLoop m
        { s with candidates := s.candidates ++ [(hexEncode r.name, NewCandidate r)],
                 candidateVotes := s.candidateVotes ++ [(hexEncode r.name, [])] } rest := by
  rfl

/-- The registration loop only ever appends to the candidate map. -/
theorem addRegsLoop_candidates_mono (m : Bool) :
    ∀ (regs : List Registration) (s : CalcState),
      ∃ l, ((addRegsLoop m s regs).1).candidates = s.candidates ++ l := by
  intro regs
  induction regs with
  | nil => intro s; exact ⟨[], by simp [addRegsLoop]⟩
  | cons r rest ih =>
    intro s
    rw [addRegsLoop_cons]
    by_cases h1 : (lookupA (hexEncode r.name) s.candidates).isSome = true
    · rw [if_pos h1]; exact ⟨[], by simp⟩
    · rw [if_neg h1]
      by_cases h2 : 1 < r.selfStakingWeight ∧ m = true
      · rw [if_pos h2]; exact ih s
      · rw [if_neg h2]
        obtain ⟨l, hl⟩ := ih
          { s with candidates := s.candidates ++ [(hexEncode r.name, NewCandidate r)],
                   candidateVotes := s.candidateVotes ++ [(hexEncode r.name, [])] }
        exact ⟨(hexEncode r.name, NewCandidate r) :: l, by simpa using hl⟩

/-- A key present in the candidate map stays present through the rest of the
registration loop. -/
theorem addRegsLoop_keeps_key (m : Bool) (regs : List Registration) (s : CalcState)
    (k : List Nat) (h : (lookupA k s.candidates).isSome = true) :
    (lookupA k ((addRegsLoop m s regs).1).candidates).isSome = true := by
  obtain ⟨l, hl⟩ := addRegsLoop_candidates_mono m regs s
  rw [hl]
  exact lookupA_isSome_append k s.candidates l h

/-- Running the registration loop on `pre ++ rest` after `pre` succeeded equals
running it on `rest` from the state `pre` reached. -/
theorem addRegsLoop_append (m : Bool) :
    ∀ (pre : List Registration) (s s1 : CalcState), addRegsLoop m s pre = (s1, none) →
      ∀ rest, addRegsLoop m s (pre ++ rest) = addRegsLoop m s1 rest := by
  intro pre
  induction pre with
  | nil =>
    intro s s1 h rest
    simp only [addRegsLoop] at h
    rw [List.nil_append, ((Prod.mk.injEq _ _ _ _).mp h).1]
  | cons r pre1 ih =>
    intro s s1 h rest
    rw [List.cons_append, addRegsLoop_cons]
    rw [addRegsLoop_cons] at h
    by_cases h1 : (lookupA (hexEncode r.name) s.candidates).isSome = true
    · rw [if_pos h1] at h
      exact absurd (congrArg Prod.snd h) (by simp)
    · rw [if_neg h1] at h
      rw [if_neg h1]
      by_cases h2 : 1 < r.selfStakingWeight ∧ m = true
      · rw [if_pos h2] at h
        rw [if_pos h2]
        exact ih s s1 h rest
      · rw [if_neg h2] at h
        rw [if_neg h2]
        exact ih _ s1 h rest

/-- A key bound in an association list stays bound after appending entries on
the right of the binding. -/
theorem lookupA_isSome_append_self {β : Type} (k : List Nat) (xs : List (List Nat × β))
    (v : β) : (lookupA k (xs ++ [(k, v)])).isSome = true := by
  induction xs with
  | nil => simp [lookupA]
  | cons e es ihe =>
    by_cases he : e.1 = k
    · simp [lookupA, he]
    · simpa [lookupA, he] using ihe

/-- C10 as amended: when `AddRegistrations` hits a duplicate after a prefix `pre`
of successfully processed registrations, the state returned is exactly the state
after `pre`, so every insertion made for `pre` remains; and every registration of
`pre` that the manified filter did not skip is present in the candidate map.
Registrations skipped by the manified filter (weight > 1 with skipManified set)
were never inserted, as the counterexample shows. -/
theorem addRegistrations_duplicate_keeps_prefix (m : Bool) (s : CalcState)
    (pre : List Registration) (r : Registration) (post : List Registration) (s1 : CalcState)
    (hc : s.calculated = false) (hv : ¬ 0 < s.totalVotes)
    (hpre : addRegsLoop m s pre = (s1, none))
    (hdup : (lookupA (hexEncode r.name) s1.candidates).isSome = true) :
    AddRegistrations m s (pre ++ r :: post)
      = (s1, some (CalcErr.duplicate (hexEncode r.name))) ∧
    ∀ p ∈ pre, ¬ (1 < p.selfStakingWeight ∧ m = true) →
      (lookupA (hexEncode p.name) s1.candidates).isSome = true := by
  constructor
  · unfold AddRegistrations
    rw [if_neg (by simp [hc]), if_neg hv]
    rw [addRegsLoop_append m pre s s1 hpre (r :: post)]
    rw [addRegsLoop_cons, if_pos hdup]
  · clear hdup hc hv
    induction pre generalizing s with
    | nil => intro p hp; exact absurd hp (List.not_mem_nil p)
    | cons q pre1 ih =>
      rw [addRegsLoop_cons] at hpre
      intro p hp hnskip
      by_cases h1 : (lookupA (hexEncode q.name) s.candidates).isSome = true
      · rw [if_pos h1] at hpre
        exact absurd (congrArg Prod.snd hpre) (by simp)
      · rw [if_neg h1] at hpre
        rcases List.mem_cons.mp hp with hpq | hp1
        · subst hpq
          rw [if_neg hnskip] at hpre
          have hkey := lookupA_isSome_append_self (hexEncode p.name) s.candidates (NewCandidate p)
          have hkeep := addRegsLoop_keeps_key m pre1
            { s with candidates := s.candidates ++ [(hexEncode p.name, NewCandidate p)],
                     candidateVotes := s.candidateVotes ++ [(hexEncode p.name, [])] }
            (hexEncode p.name) hkey
          rw [hpre] at hkeep
          exact hkeep
        · by_cases h2 : 1 < q.selfStakingWeight ∧ m = true
          · rw [if_pos h2] at hpre
            exact ih s hpre p hp1 hnskip
          · rw [if_neg h2] at hpre
            exact ih _ hpre p hp1 hnskip

theorem addRegistrations_duplicate_keeps_prefix_witness :
    AddRegistrations true NewResultCalculator
        [{ name := [3], address := [10], selfStakingWeight := 1 },
         { name := [2], address := [11], selfStakingWeight := 1 },
         { name := [2], address := [12], selfStakingWeight := 1 }]
      = ((addRegsLoop true NewResultCalculator
            [{ name := [3], address := [10], selfStakingWeight := 1 },
             { name := [2], address := [11], selfStakingWeight := 1 }]).1,
         some (CalcErr.duplicate (hexEncode [2]))) ∧
    ∀ p ∈ [({ name := [3], address := [10], selfStakingWeight := 1 } : Registration),
           { name := [2], address := [11], selfStakingWeight := 1 }],
      ¬ (1 < p.selfStakingWeight ∧ true = true) →
      (lookupA (hexEncode p.name)
        ((addRegsLoop true NewResultCalculator
            [{ name := [3], address := [10], selfStakingWeight := 1 },
             { name := [2], address := [11], selfStakingWeight := 1 }]).1).candidates).isSome
        = true :=
  addRegistrations_duplicate_keeps_prefix true NewResultCalculator
    [{ name := [3], address := [10], selfStakingWeight := 1 },
     { name := [2], address := [11], selfStakingWeight := 1 }]
    { name := [2], address := [12], selfStakingWeight := 1 } [] _
    (by decide) (by decide) (by decide) (by decide)
/-! Properties of the composite ranking order. -/

theorem bytesCmp_eq_iff : ∀ (a b : List Nat), bytesCmp a b = Ordering.eq ↔ a = b
  | [], [] => by simp [bytesCmp]
  | [], _ :: _ => by simp [bytesCmp]
  | _ :: _, [] => by simp [bytesCmp]
  | x :: xs, y :: ys => by
    rcases Nat.lt_trichotomy x y with h | h | h
    · rw [bytesCmp, if_pos h]
      exact iff_of_false (by decide) (by intro hh; injection hh with h1 h2; omega)
    · rw [bytesCmp, if_neg (by omega), if_neg (by omega)]
      rw [bytesCmp_eq_iff xs ys]
      subst h
      simp
    · rw [bytesCmp, if_neg (by omega), if_pos h]
      exact iff_of_false (by decide) (by intro hh; injection hh with h1 h2; omega)

theorem bytesCmp_self (a : List Nat) : bytesCmp a a = Ordering.eq :=
  (bytesCmp_eq_iff a a).mpr rfl

theorem bytesCmp_swap : ∀ (a b : List Nat), bytesCmp b a = (bytesCmp a b).swap
  | [], [] => by simp [bytesCmp, Ordering.swap]
  | [], _ :: _ => by simp [bytesCmp, Ordering.swap]
  | _ :: _, [] => by simp [bytesCmp, Ordering.swap]
  | x :: xs, y :: ys => by
    rcases Nat.lt_trichotomy x y with h | h | h
    · rw [bytesCmp, bytesCmp, if_neg (by omega : ¬ y < x), if_pos h, if_pos h]
      rfl
    · subst h
      simp [bytesCmp, (by omega : ¬ x < x), bytesCmp_swap xs ys]
    · rw [bytesCmp, bytesCmp, if_pos h, if_neg (by omega : ¬ x < y), if_pos h]
      rfl

/-- Inversion for a gt comparison of two nonempty byte strings. -/
theorem bytesCmp_cons_gt {x y : Nat} {xs ys : List Nat}
    (h : bytesCmp (x :: xs) (y :: ys) = Ordering.gt) :
    y < x ∨ (x = y ∧ bytesCmp xs ys = Ordering.gt) := by
  rw [bytesCmp] at h
  by_cases h1 : x < y
  · rw [if_pos h1] at h; exact absurd h (by decide)
  · rw [if_neg h1] at h
    by_cases h2 : y < x
    · exact Or.inl h2
    · rw [if_neg h2] at h
      exact Or.inr ⟨by omega, h⟩

/-- Introduction for a gt comparison of two nonempty byte strings. -/
theorem bytesCmp_cons_gt_intro {x y : Nat} {xs ys : List Nat}
    (h : y < x ∨ (x = y ∧ bytesCmp xs ys = Ordering.gt)) :
    bytesCmp (x :: xs) (y :: ys) = Ordering.gt := by
  rw [bytesCmp]
  rcases h with h | ⟨h1, h2⟩
  · rw [if_neg (by omega), if_pos h]
  · rw [if_neg (by omega), if_neg (by omega)]
    exact h2

theorem bytesCmp_gt_trans :
    ∀ (a b c : List Nat), bytesCmp a b = Ordering.gt → bytesCmp b c = Ordering.gt →
      bytesCmp a c = Ordering.gt
  | [], [], _, h1, _ => by simp [bytesCmp] at h1
  | [], _ :: _, _, h1, _ => by simp [bytesCmp] at h1
  | _ :: _, [], c, _, h2 => by
    cases c with
    | nil => simp [bytesCmp] at h2
    | cons z zs => simp [bytesCmp] at h2
  | _ :: _, _ :: _, [], _, _ => by rfl
  | x :: xs, y :: ys, z :: zs, h1, h2 => by
    rcases bytesCmp_cons_gt h1 with ha | ⟨ha, ha2⟩ <;>
      rcases bytesCmp_cons_gt h2 with hb | ⟨hb, hb2⟩
    · exact bytesCmp_cons_gt_intro (Or.inl (by omega))
    · exact bytesCmp_cons_gt_intro (Or.inl (by omega))
    · exact bytesCmp_cons_gt_intro (Or.inl (by omega))
    · exact bytesCmp_cons_gt_intro (Or.inr ⟨by omega, bytesCmp_gt_trans xs ys zs ha2 hb2⟩)

/-- `itemLess` decides exactly the strict composite order of spec §4.3. -/
theorem itemLess_iff_itemGT (a b : Item) : itemLess a b = true ↔ itemGT a b := by
  unfold itemLess itemGT
  rcases Int.lt_trichotomy a.Value b.Value with hv | hv | hv
  · rw [if_pos hv]
    exact iff_of_false (by decide) (by rintro (h | ⟨h, _⟩) <;> omega)
  · rw [if_neg (by omega), if_neg (by omega)]
    rcases Nat.lt_trichotomy a.Priority b.Priority with hp | hp | hp
    · rw [if_pos hp]
      exact iff_of_false (by decide) (by rintro (h | ⟨_, h | ⟨h, _⟩⟩) <;> omega)
    · rw [if_neg (by omega), if_neg (by omega)]
      rw [decide_eq_true_iff]
      constructor
      · intro h; exact Or.inr ⟨hv, Or.inr ⟨hp, h⟩⟩
      · rintro (h | ⟨_, h | ⟨_, h⟩⟩)
        · omega
        · omega
        · exact h
    · rw [if_neg (by omega), if_pos hp]
      exact iff_of_true rfl (Or.inr ⟨hv, Or.inl hp⟩)
  · rw [if_neg (by omega), if_pos hv]
    exact iff_of_true rfl (Or.inl hv)

theorem itemGT_irrefl (a : Item) : ¬ itemGT a a := by
  unfold itemGT
  rw [bytesCmp_self]
  rintro (h | ⟨_, h | ⟨_, h⟩⟩)
  · omega
  · omega
  · exact absurd h (by decide)

theorem itemGT_trans {a b c : Item} (h1 : itemGT a b) (h2 : itemGT b c) : itemGT a c := by
  unfold itemGT at h1 h2 ⊢
  rcases h1 with h1 | ⟨hv1, h1⟩
  · rcases h2 with h2 | ⟨hv2, _⟩
    · exact Or.inl (by omega)
    · exact Or.inl (by omega)
  · rcases h2 with h2 | ⟨hv2, h2⟩
    · exact Or.inl (by omega)
    · refine Or.inr ⟨by omega, ?_⟩
      rcases h1 with h1 | ⟨hp1, h1⟩
      · rcases h2 with h2 | ⟨hp2, _⟩
        · exact Or.inl (by omega)
        · exact Or.inl (by omega)
      · rcases h2 with h2 | ⟨hp2, h2⟩
        · exact Or.inl (by omega)
        · exact Or.inr ⟨by omega, bytesCmp_gt_trans _ _ _ h1 h2⟩

theorem itemGT_asymm {a b : Item} (h : itemGT a b) : ¬ itemGT b a :=
  fun h2 => itemGT_irrefl a (itemGT_trans h h2)

theorem itemGT_connex {a b : Item} (hne : a ≠ b) : itemGT a b ∨ itemGT b a := by
  unfold itemGT
  rcases Int.lt_trichotomy a.Value b.Value with hv | hv | hv
  · exact Or.inr (Or.inl hv)
  · rcases Nat.lt_trichotomy a.Priority b.Priority with hp | hp | hp
    · exact Or.inr (Or.inr ⟨by omega, Or.inl hp⟩)
    · have hkey : a.Key ≠ b.Key := by
        intro hk
        apply hne
        cases a; cases b
        simp only at hv hp hk
        simp [hv, hp, hk]
      rcases hcmp : bytesCmp a.Key b.Key with h | h | h
      · refine Or.inr (Or.inr ⟨by omega, Or.inr ⟨by omega, ?_⟩⟩)
        rw [bytesCmp_swap, hcmp]
        rfl
      · exact absurd ((bytesCmp_eq_iff _ _).mp hcmp) hkey
      · exact Or.inl (Or.inr ⟨hv, Or.inr ⟨hp, rfl⟩⟩)
    · exact Or.inl (Or.inr ⟨hv, Or.inl hp⟩)
  · exact Or.inl (Or.inl hv)

/-- `itemRel a b` holds exactly when `b` does not strictly precede `a`. -/
theorem itemRel_iff (a b : Item) : itemRel a b ↔ ¬ itemGT b a := by
  unfold itemRel itemLE
  rw [Bool.not_eq_true', ← itemLess_iff_itemGT, Bool.not_eq_true]
instance : IsTotal Item itemRel :=
  ⟨fun a b => by
    rw [itemRel_iff, itemRel_iff]
    by_cases h : itemGT b a
    · exact Or.inr (itemGT_asymm h)
    · exact Or.inl h⟩

instance : IsTrans Item itemRel :=
  ⟨fun a b c hab hbc => by
    rw [itemRel_iff] at hab hbc ⊢
    intro hca
    by_cases he : a = b
    · subst he; exact hbc hca
    · rcases itemGT_connex he with h | h
      · exact hbc (itemGT_trans hca h)
      · exact hab h⟩

instance : IsAntisymm Item itemRel :=
  ⟨fun a b hab hba => by
    rw [itemRel_iff] at hab hba
    by_contra hne
    rcases itemGT_connex hne with h | h
    · exact hba h
    · exact hab h⟩

/-- A list sorted by `itemRel` whose keys are distinct is strictly decreasing in
the composite order. -/
theorem chain_of_sorted_nodup_keys :
    ∀ (l : List Item), l.Pairwise itemRel → (l.map Item.Key).Nodup → l.Chain' itemGT
  | [], _, _ => List.chain'_nil
  | [_], _, _ => List.chain'_singleton _
  | a :: b :: l, hp, hnd => by
    rw [List.chain'_cons]
    rw [List.pairwise_cons] at hp
    constructor
    · have hab : itemRel a b := hp.1 b (List.mem_cons_self _ _)
      have hkey : a.Key ≠ b.Key := by
        rw [List.map_cons, List.map_cons, List.nodup_cons] at hnd
        intro h
        exact hnd.1 (by rw [h]; exact List.mem_cons_self _ _)
      have hne : a ≠ b := fun h => hkey (by rw [h])
      rcases itemGT_connex hne with h | h
      · exact h
      · exact absurd h ((itemRel_iff a b).mp hab)
    · apply chain_of_sorted_nodup_keys (b :: l) hp.2
      rw [List.map_cons, List.nodup_cons] at hnd
      exact hnd.2

/-- The keys of the ranking items form a sublist of the candidate map's keys. -/
theorem itemsOf_keys_sublist (cf : Candidate → Bool) (ts : Int) :
    ∀ entries : List (List Nat × Candidate),
      ((itemsOf cf ts entries).map Item.Key).Sublist (entries.map Prod.fst)
  | [] => by simp [itemsOf]
  | p :: es => by
    by_cases h : cf p.2 = true
    · have he : itemsOf cf ts (p :: es) = itemsOf cf ts es := by
        simp [itemsOf, List.filterMap_cons, h]
      rw [he, List.map_cons]
      exact (itemsOf_keys_sublist cf ts es).cons _
    · have he : itemsOf cf ts (p :: es)
          = { Key := p.1, Value := p.2.score, Priority := calcPriority p.1 ts } :: itemsOf cf ts es := by
        simp [itemsOf, List.filterMap_cons, h]
      rw [he, List.map_cons, List.map_cons]
      exact (itemsOf_keys_sublist cf ts es).cons₂ _
/-! C2: the ranked list is strictly decreasing in the composite order. -/

/-- C2: in the stably sorted item list that `filterAndSortCandidates` builds (and
whose keys, in this order, are the delegate list `Calculate` returns), every
adjacent pair is strictly decreasing under the composite order: score descending
by integer comparison, then priority descending, then name descending. The
hypothesis that the candidate map's keys are distinct holds for every map. -/
theorem delegates_strictly_ordered (cf : Candidate → Bool) (ts : Int)
    (entries : List (List Nat × Candidate))
    (hnd : (entries.map Prod.fst).Nodup) :
    (sortItems (itemsOf cf ts entries)).Chain' itemGT := by
  apply chain_of_sorted_nodup_keys
  · exact List.sorted_insertionSort itemRel (itemsOf cf ts entries)
  · have hitems : ((itemsOf cf ts entries).map Item.Key).Nodup :=
      (itemsOf_keys_sublist cf ts entries).nodup hnd
    have hperm : (sortItems (itemsOf cf ts entries)).Perm (itemsOf cf ts entries) :=
      List.perm_insertionSort itemRel (itemsOf cf ts entries)
    exact (hperm.map Item.Key).symm.nodup hitems

theorem delegates_strictly_ordered_witness :
    (sortItems (itemsOf (fun _ => false) 1000000
      [(hexEncode [0x61, 0x61],
        { name := [0x61, 0x61], address := [1], selfStakingWeight := 1,
          score := 100, selfStakingTokens := 0 }),
       (hexEncode [0x62, 0x62],
        { name := [0x62, 0x62], address := [2], selfStakingWeight := 1,
          score := 100, selfStakingTokens := 0 })])).Chain' itemGT :=
  delegates_strictly_ordered (fun _ => false) 1000000
    [(hexEncode [0x61, 0x61],
      { name := [0x61, 0x61], address := [1], selfStakingWeight := 1,
        score := 100, selfStakingTokens := 0 }),
     (hexEncode [0x62, 0x62],
      { name := [0x62, 0x62], address := [2], selfStakingWeight := 1,
        score := 100, selfStakingTokens := 0 })]
    (by decide)

/-! C3: the ranking does not depend on the candidate map's iteration order. -/

/-- C3: two calculators over identical inputs differ at most in the order the
candidate map yields its entries; for any two permutations of the same entries,
`filterAndSortCandidates` (hence the ranked delegate sequence `Calculate`
returns) is identical, because the stable sort under the total, antisymmetric
ranking order has a unique sorted output. -/
theorem ranking_deterministic (cf : Candidate → Bool) (ts : Int)
    (e1 e2 : List (List Nat × Candidate)) (hp : e1.Perm e2) :
    filterAndSortCandidates cf ts e1 = filterAndSortCandidates cf ts e2 := by
  unfold filterAndSortCandidates
  congr 1
  apply List.eq_of_perm_of_sorted (r := itemRel)
  · exact ((List.perm_insertionSort itemRel (itemsOf cf ts e1)).trans
      (hp.filterMap _)).trans (List.perm_insertionSort itemRel (itemsOf cf ts e2)).symm
  · exact List.sorted_insertionSort itemRel (itemsOf cf ts e1)
  · exact List.sorted_insertionSort itemRel (itemsOf cf ts e2)

theorem ranking_deterministic_witness :
    filterAndSortCandidates (fun _ => false) 1000000
        [(hexEncode [0x61, 0x61],
          { name := [0x61, 0x61], address := [1], selfStakingWeight := 1,
            score := 100, selfStakingTokens := 0 }),
         (hexEncode [0x62, 0x62],
          { name := [0x62, 0x62], address := [2], selfStakingWeight := 1,
            score := 100, selfStakingTokens := 0 })]
      = filterAndSortCandidates (fun _ => false) 1000000
        [(hexEncode [0x62, 0x62],
          { name := [0x62, 0x62], address := [2], selfStakingWeight := 1,
            score := 100, selfStakingTokens := 0 }),
         (hexEncode [0x61, 0x61],
          { name := [0x61, 0x61], address := [1], selfStakingWeight := 1,
            score := 100, selfStakingTokens := 0 })] :=
  ranking_deterministic (fun _ => false) 1000000 _ _ (by decide)
/-! C1: the bytes hashed for the tie-breaking priority. The code hashes the
lowercase-hex map key of the candidate name, not the original name bytes. -/

/-- Every candidate map entry produced by the registration loop either was
already present or is the insertion of one of the processed registrations, keyed
by the lowercase-hex encoding of its name. -/
theorem addRegsLoop_entry_src (m : Bool) :
    ∀ (regs : List Registration) (s : CalcState) (p : List Nat × Candidate),
      p ∈ ((addRegsLoop m s regs).1).candidates →
      p ∈ s.candidates ∨ ∃ r ∈ regs, p = (hexEncode r.name, NewCandidate r) := by
  intro regs
  induction regs with
  | nil =>
    intro s p hp
    simp only [addRegsLoop] at hp
    exact Or.inl hp
  | cons r rest ih =>
    intro s p hp
    rw [addRegsLoop_cons] at hp
    by_cases h1 : (lookupA (hexEncode r.name) s.candidates).isSome = true
    · rw [if_pos h1] at hp
      exact Or.inl hp
    · rw [if_neg h1] at hp
      by_cases h2 : 1 < r.selfStakingWeight ∧ m = true
      · rw [if_pos h2] at hp
        rcases ih s p hp with h | ⟨q, hq, hpq⟩
        · exact Or.inl h
        · exact Or.inr ⟨q, List.mem_cons_of_mem r hq, hpq⟩
      · rw [if_neg h2] at hp
        rcases ih _ p hp with h | ⟨q, hq, hpq⟩
        · rcases List.mem_append.mp h with h | h
          · exact Or.inl h
          · rcases List.mem_singleton.mp h with h
            exact Or.inr ⟨r, List.mem_cons_self _ _, h⟩
        · exact Or.inr ⟨q, List.mem_cons_of_mem r hq, hpq⟩

/-- C1 as amended: for a calculator built by `AddRegistrations`, the tie-breaking
priority of every qualifying candidate is the first 8 bytes of BLAKE2b-256 of the
LOWERCASE-HEX form of the candidate's name (the map key, i.e. the ASCII bytes of
`hex.EncodeToString(name)`) concatenated with the 8-byte little-endian mint-time
Unix seconds, read as an unsigned 64-bit little-endian integer — not of the
original name bytes. -/
theorem priority_hashes_hex_name (m : Bool) (regs : List Registration)
    (cf : Candidate → Bool) (ts : Int) (s1 : CalcState)
    (h : AddRegistrations m NewResultCalculator regs = (s1, none)) :
    ∀ it ∈ itemsOf cf ts s1.candidates, ∃ r ∈ regs,
      it.Key = hexEncode r.name ∧
      it.Priority = BytesToUint64
        ((blake2b256 (hexEncode r.name ++ Uint64ToBytes (toUint64 ts))).take 8) := by
  have hloop : addRegsLoop m NewResultCalculator regs = (s1, none) := by
    have hne := h
    unfold AddRegistrations at hne
    rw [if_neg (by simp [NewResultCalculator]), if_neg (by simp [NewResultCalculator])] at hne
    exact hne
  intro it hit
  unfold itemsOf at hit
  rw [List.mem_filterMap] at hit
  obtain ⟨p, hp, hpe⟩ := hit
  have hsrc := addRegsLoop_entry_src m regs NewResultCalculator p (by rw [hloop]; exact hp)
  rcases hsrc with hfalse | ⟨r, hr, hpr⟩
  · exact absurd hfalse (List.not_mem_nil p)
  · refine ⟨r, hr, ?_⟩
    by_cases hcf : cf p.2 = true
    · rw [if_pos hcf] at hpe
      exact absurd hpe (by simp)
    · rw [if_neg hcf] at hpe
      have hkey : p.1 = hexEncode r.name := by rw [hpr]
      have hit2 : it = { Key := p.1, Value := p.2.score, Priority := calcPriority p.1 ts } :=
        ((Option.some.injEq _ _).mp hpe).symm
      rw [hit2, hkey]
      exact ⟨rfl, rfl⟩
theorem priority_hashes_hex_name_witness :
    ({ Key := hexEncode [0xaa, 0xaa], Value := 0,
       Priority := calcPriority (hexEncode [0xaa, 0xaa]) 1000000 } : Item).Key
        = hexEncode [0xaa, 0xaa] ∧
    ({ Key := hexEncode [0xaa, 0xaa], Value := 0,
       Priority := calcPriority (hexEncode [0xaa, 0xaa]) 1000000 } : Item).Priority
        = BytesToUint64 ((blake2b256 (hexEncode [0xaa, 0xaa] ++
            Uint64ToBytes (toUint64 1000000))).take 8) := by
  obtain ⟨r, hr, h1, h2⟩ :=
    priority_hashes_hex_name false
      [{ name := [0xaa, 0xaa], address := [1], selfStakingWeight := 1 }]
      (fun _ => false) 1000000
      (AddRegistrations false NewResultCalculator
        [{ name := [0xaa, 0xaa], address := [1], selfStakingWeight := 1 }]).1
      (by decide)
      { Key := hexEncode [0xaa, 0xaa], Value := 0,
        Priority := calcPriority (hexEncode [0xaa, 0xaa]) 1000000 }
      (by decide)
  have hre : r = { name := [0xaa, 0xaa], address := [1], selfStakingWeight := 1 } :=
    List.mem_singleton.mp hr
  rw [hre] at h1 h2
  exact ⟨h1, h2⟩

/-- C1 counterexample: for the calculator holding the single candidate whose
original name bytes are [0xaa, 0xaa] (hex form "aaaa") at mint time 1000000, the
single qualifying item's priority is NOT the first 8 bytes of BLAKE2b-256 of the
ORIGINAL name bytes concatenated with the little-endian mint-time seconds: the
code hashes the hex form of the name instead. -/
theorem priority_original_name_counterexample :
    ((itemsOf (fun _ => false) 1000000
        ((AddRegistrations false NewResultCalculator
          [{ name := [0xaa, 0xaa], address := [1], selfStakingWeight := 1 }]).1).candidates).map
      Item.Key = [hexEncode [0xaa, 0xaa]]) ∧
    ¬ ((itemsOf (fun _ => false) 1000000
        ((AddRegistrations false NewResultCalculator
          [{ name := [0xaa, 0xaa], address := [1], selfStakingWeight := 1 }]).1).candidates).map
      Item.Priority
      = [BytesToUint64
          ((blake2b256 ([0xaa, 0xaa] ++ Uint64ToBytes (toUint64 1000000))).take 8)]) := by
  constructor
  · decide
  · decide
/-! C7: ordered commit in storeInBatch. -/

/-- Unfolding equation: a height whose fetch error is recorded aborts the loop. -/
theorem storeLoop_cons_err {E : Type} (interval : Nat) (results : List (Nat × ERes))
    (errs : Nat → Option E) (s : CommitteeState) (h : Nat) (rest : List Nat) (e : E)
    (he : errs h = some e) :
    storeLoop interval results errs s (h :: rest) = BatchOut.err (BatchErr.fetch e) s := by
  unfold storeLoop
  rw [he]

/-- Unfolding equation: a validated height is stored, `nextHeight` becomes the
height plus the interval, and the loop continues. -/
theorem storeLoop_cons_store {E : Type} (interval : Nat) (results : List (Nat × ERes))
    (errs : Nat → Option E) (s : CommitteeState) (h : Nat) (rest : List Nat)
    (he : errs h = none)
    (hv : hmValidate s.hm h ((lookupA h results).getD { mintTime := 0 }).mintTime = true) :
    storeLoop interval results errs s (h :: rest)
      = storeLoop interval results errs
          { stored := s.stored ++ [(h, (lookupA h results).getD { mintTime := 0 })],
            nextHeight := h + interval,
            hm := s.hm ++ [(h, ((lookupA h results).getD { mintTime := 0 }).mintTime)] } rest := by
  simp only [storeLoop, storeResult, he, hv, if_true]

/-- Unfolding equation: a height the height manager rejects is fatal. -/
theorem storeLoop_cons_fatal {E : Type} (interval : Nat) (results : List (Nat × ERes))
    (errs : Nat → Option E) (s : CommitteeState) (h : Nat) (rest : List Nat)
    (he : errs h = none)
    (hv : ¬ hmValidate s.hm h ((lookupA h results).getD { mintTime := 0 }).mintTime = true) :
    storeLoop interval results errs s (h :: rest) = BatchOut.fatal s := by
  simp [storeLoop, he, hv]

/-- Full characterization of the non-fatal runs of the commit loop over a
strictly ascending height list. -/
theorem storeLoop_spec {E : Type} (interval : Nat) (results : List (Nat × ERes))
    (errs : Nat → Option E) :
    ∀ (hs : List Nat) (s : CommitteeState),
      hs.Pairwise (· < ·) →
      (storeLoop interval results errs s hs).isFatal = false →
      ∃ newH : List Nat,
        ((storeLoop interval results errs s hs).state.stored.map Prod.fst
            = s.stored.map Prod.fst ++ newH) ∧
        newH.Pairwise (· < ·) ∧
        (∀ x ∈ newH, x ∈ hs) ∧
        ((storeLoop interval results errs s hs).state.nextHeight
            = newH.getLast?.elim s.nextHeight (fun hh => hh + interval)) ∧
        (∀ (pre : List Nat) (h0 : Nat) (post : List Nat) (e : E),
          hs = pre ++ h0 :: post → (∀ h ∈ pre, errs h = none) → errs h0 = some e →
          storeLoop interval results errs s hs
              = BatchOut.err (BatchErr.fetch e) (storeLoop interval results errs s hs).state ∧
            newH = pre) ∧
        ((∀ h ∈ hs, errs h = none) →
          storeLoop interval results errs s hs
              = BatchOut.ok (storeLoop interval results errs s hs).state ∧
            newH = hs) := by
  intro hs
  induction hs with
  | nil =>
    intro s _ _
    refine ⟨[], by simp [storeLoop, BatchOut.state], List.Pairwise.nil, by simp, ?_, ?_, ?_⟩
    · simp [storeLoop, BatchOut.state, Option.elim]
    · intro pre h0 post e habs _ _
      exact absurd habs (by cases pre <;> simp)
    · intro _
      exact ⟨rfl, rfl⟩
  | cons h rest ih =>
    intro s hpw hnf
    rw [List.pairwise_cons] at hpw
    cases he : errs h with
    | some e =>
      rw [storeLoop_cons_err interval results errs s h rest e he]
      rw [storeLoop_cons_err interval results errs s h rest e he] at hnf
      refine ⟨[], by simp [BatchOut.state], List.Pairwise.nil, by simp, ?_, ?_, ?_⟩
      · simp [BatchOut.state, Option.elim]
      · intro pre h0 post e2 hsplit hprenone herr
        cases pre with
        | nil =>
          rw [List.nil_append] at hsplit
          have hh0 : h0 = h := (List.cons.injEq _ _ _ _).mp hsplit |>.1 |>.symm
          subst hh0
          rw [he] at herr
          have he2 : e2 = e := (Option.some.injEq _ _).mp herr.symm
          subst he2
          exact ⟨rfl, rfl⟩
        | cons hq pre1 =>
          rw [List.cons_append] at hsplit
          have hhq : hq = h := ((List.cons.injEq _ _ _ _).mp hsplit).1.symm
          subst hhq
          have := hprenone hq (List.mem_cons_self _ _)
          rw [he] at this
          exact absurd this (by simp)
      · intro hall
        have := hall h (List.mem_cons_self _ _)
        rw [he] at this
        exact absurd this (by simp)
    | none =>
      by_cases hv : hmValidate s.hm h ((lookupA h results).getD { mintTime := 0 }).mintTime = true
      · rw [storeLoop_cons_store interval results errs s h rest he hv] at hnf ⊢
        obtain ⟨newH1, hstored, hpw1, hmem1, hnext1, herr1, hok1⟩ :=
          ih { stored := s.stored ++ [(h, (lookupA h results).getD { mintTime := 0 })],
               nextHeight := h + interval,
               hm := s.hm ++ [(h, ((lookupA h results).getD { mintTime := 0 }).mintTime)] }
            hpw.2 hnf
        refine ⟨h :: newH1, ?_, ?_, ?_, ?_, ?_, ?_⟩
        · rw [hstored]
          simp
        · rw [List.pairwise_cons]
          exact ⟨fun x hx => hpw.1 x (hmem1 x hx), hpw1⟩
        · intro x hx
          rcases List.mem_cons.mp hx with hx | hx
          · exact hx ▸ List.mem_cons_self _ _
          · exact List.mem_cons_of_mem h (hmem1 x hx)
        · cases hn1 : newH1 with
          | nil =>
            rw [hn1] at hnext1
            simp only [Option.elim] at hnext1
            rw [hnext1]
            simp [Option.elim]
          | cons x xs =>
            rw [hn1] at hnext1
            rw [List.getLast?_cons_cons]
            exact hnext1
        · intro pre h0 post e hsplit hprenone herr
          cases pre with
          | nil =>
            rw [List.nil_append] at hsplit
            have hh0 : h0 = h := ((List.cons.injEq _ _ _ _).mp hsplit).1.symm
            subst hh0
            rw [he] at herr
            exact absurd herr (by simp)
          | cons hq pre1 =>
            rw [List.cons_append] at hsplit
            obtain ⟨hhq, hrest⟩ := (List.cons.injEq _ _ _ _).mp hsplit
            obtain ⟨hres, hnew⟩ := herr1 pre1 h0 post e hrest
              (fun x hx => hprenone x (List.mem_cons_of_mem hq hx)) herr
            exact ⟨hres, by rw [hnew, hhq]⟩
        · intro hall
          obtain ⟨hres, hnew⟩ := hok1 (fun x hx => hall x (List.mem_cons_of_mem h hx))
          exact ⟨hres, by rw [hnew]⟩
      · rw [storeLoop_cons_fatal interval results errs s h rest he hv] at hnf
        exact absurd hnf (by simp [BatchOut.isFatal])
/-- C7: on a batch with distinct heights whose run does not hit the fatal
height-manager abort, `storeInBatch` commits heights in strictly ascending
order; if some height's recorded fetch error is non-nil, the loop returns the
error of the first such height (in ascending order) having committed exactly
the ascending heights before it and none at or after it; and `nextHeight` ends
at the last committed height plus the interval (unchanged when nothing was
committed). -/
theorem storeInBatch_ordered_commit {E : Type} (interval : Nat) (s : CommitteeState)
    (results : List (Nat × ERes)) (errs : Nat → Option E)
    (hnd : (results.map Prod.fst).Nodup)
    (hnf : (storeInBatch interval s results errs).isFatal = false) :
    ∃ newH : List Nat,
      ((storeInBatch interval s results errs).state.stored.map Prod.fst
          = s.stored.map Prod.fst ++ newH) ∧
      newH.Pairwise (· < ·) ∧
      ((storeInBatch interval s results errs).state.nextHeight
          = newH.getLast?.elim s.nextHeight (fun hh => hh + interval)) ∧
      (∀ (pre : List Nat) (h0 : Nat) (post : List Nat) (e : E),
        sortHeights results = pre ++ h0 :: post →
        (∀ h ∈ pre, errs h = none) → errs h0 = some e →
        storeInBatch interval s results errs
            = BatchOut.err (BatchErr.fetch e) (storeInBatch interval s results errs).state ∧
          newH = pre) ∧
      ((∀ h ∈ sortHeights results, errs h = none) →
        storeInBatch interval s results errs
            = BatchOut.ok (storeInBatch interval s results errs).state ∧
          newH = sortHeights results) := by
  have hsorted : (sortHeights results).Sorted (· ≤ ·) :=
    List.sorted_insertionSort (· ≤ ·) (results.map Prod.fst)
  have hnds : (sortHeights results).Nodup :=
    ((List.perm_insertionSort (· ≤ ·) (results.map Prod.fst)).symm).nodup hnd
  have hpw : (sortHeights results).Pairwise (· < ·) := hsorted.lt_of_le hnds
  obtain ⟨newH, h1, h2, _, h4, h5, h6⟩ :=
    storeLoop_spec interval results errs (sortHeights results) s hpw hnf
  exact ⟨newH, h1, h2, h4, h5, h6⟩

theorem storeInBatch_ordered_commit_witness :
    ∃ newH : List Nat,
      ((storeInBatch (E := Unit) 10
          { stored := [], nextHeight := 100, hm := [] }
          [(100, { mintTime := 5 }), (110, { mintTime := 6 })]
          (fun h => if h = 110 then some () else none)).state.stored.map Prod.fst
          = ({ stored := [], nextHeight := 100, hm := [] } :
              CommitteeState).stored.map Prod.fst ++ newH) ∧
      newH.Pairwise (· < ·) ∧
      ((storeInBatch (E := Unit) 10
          { stored := [], nextHeight := 100, hm := [] }
          [(100, { mintTime := 5 }), (110, { mintTime := 6 })]
          (fun h => if h = 110 then some () else none)).state.nextHeight
          = newH.getLast?.elim 100 (fun hh => hh + 10)) ∧
      (∀ (pre : List Nat) (h0 : Nat) (post : List Nat) (e : Unit),
        sortHeights [(100, { mintTime := 5 }), (110, { mintTime := 6 })]
            = pre ++ h0 :: post →
        (∀ h ∈ pre, (fun h => if h = 110 then some () else none : Nat → Option Unit) h = none) →
        (if h0 = 110 then some () else none) = some e →
        storeInBatch (E := Unit) 10 { stored := [], nextHeight := 100, hm := [] }
            [(100, { mintTime := 5 }), (110, { mintTime := 6 })]
            (fun h => if h = 110 then some () else none)
            = BatchOut.err (BatchErr.fetch e)
                (storeInBatch (E := Unit) 10 { stored := [], nextHeight := 100, hm := [] }
                  [(100, { mintTime := 5 }), (110, { mintTime := 6 })]
                  (fun h => if h = 110 then some () else none)).state ∧
          newH = pre) ∧
      ((∀ h ∈ sortHeights [(100, { mintTime := 5 }), (110, { mintTime := 6 })],
          (if h = 110 then some () else (none : Option Unit)) = none) →
        storeInBatch (E := Unit) 10 { stored := [], nextHeight := 100, hm := [] }
            [(100, { mintTime := 5 }), (110, { mintTime := 6 })]
            (fun h => if h = 110 then some () else none)
            = BatchOut.ok
                (storeInBatch (E := Unit) 10 { stored := [], nextHeight := 100, hm := [] }
                  [(100, { mintTime := 5 }), (110, { mintTime := 6 })]
                  (fun h => if h = 110 then some () else none)).state ∧
          newH = sortHeights [(100, { mintTime := 5 }), (110, { mintTime := 6 })]) :=
  storeInBatch_ordered_commit 10 { stored := [], nextHeight := 100, hm := [] }
    [(100, { mintTime := 5 }), (110, { mintTime := 6 })]
    (fun h => if h = 110 then some () else none)
    (by decide) (by decide)
